import Mathlib

/-!
Verification of the structural-break detection pipeline (src/main.py) against its
natural-language specification.

The pipeline is embedded shallowly: floating-point values become exact rationals,
NaN cells become Option.none, pandas column operations become explicit list
functions.  Where a value of the program is an irrational square root (the pandas
rolling standard deviation is the square root of the rational sample variance, and
a z-score is a rational deviation divided by the square root of a rational
variance), the definitions carry the rational radicand and the theorems state the
square-rooted fact with Real.sqrt.
-/

set_option autoImplicit false

namespace StructuralBreak

/-- Configuration constant ROLLING_WINDOW = 21 (src/main.py line 18). -/
def ROLLING_WINDOW : Nat := 21

/-- Configuration constant BASELINE_PERIOD = 2019 (src/main.py line 19). -/
def BASELINE_PERIOD : Nat := 2019

/-! ## Elementary statistics shared by the pipeline stages -/

/-- Arithmetic mean of a list of rationals (numpy and pandas mean). -/
def listMean (l : List ℚ) : ℚ := l.sum / (l.length : ℚ)

/-- Deviations of each entry from the list mean. -/
def devs (l : List ℚ) : List ℚ := l.map (fun x => x - listMean l)

/-- Sum of squared deviations from the mean. -/
def sqDevSum (l : List ℚ) : ℚ := ((devs l).map (fun d => d ^ 2)).sum

/-- Sample variance with denominator n - 1: the square of the pandas rolling
standard deviation (rolling .std has default ddof = 1).  Only applied to complete
windows (length 21) and to lists of length at least 2. -/
def sampleVar (l : List ℚ) : ℚ := sqDevSum l / ((l.length : ℚ) - 1)

/-- Population variance with denominator n: the square of the standard deviation
used by scipy.stats.zscore, whose default is ddof = 0. -/
def popVar (l : List ℚ) : ℚ := sqDevSum l / (l.length : ℚ)

/-! ## Series Preparation (src/main.py lines 56-57)

Prices are Option-valued: none is a missing (NaN) closing price.  Line 56 computes
Log_Return as log of the ratio of the price to the previous price (NaN at index 0,
where shift(1) yields NaN, and at any index adjacent to a missing price); line 57
drops every such row.  The natural logarithm is kept abstract as a parameter
lnq : Q -> Q, since no claim depends on its numeric values. -/

/-- One cell of the Log_Return column: needs the previous and the current price. -/
def logRetCell (lnq : ℚ → ℚ) : Option ℚ → Option ℚ → Option ℚ
  | some a, some b => some (lnq (b / a))
  | _, _ => none

/-- The Log_Return column, built by walking the price list while carrying the
previous price (none before index 0, which models shift(1)). -/
def logRetsFrom (lnq : ℚ → ℚ) : Option ℚ → List (Option ℚ) → List (Option ℚ)
  | _, [] => []
  | prev, p :: rest => logRetCell lnq prev p :: logRetsFrom lnq p rest

/-- The Log_Return column of the frame before dropna (src/main.py line 56). -/
def logReturns (lnq : ℚ → ℚ) (prices : List (Option ℚ)) : List (Option ℚ) :=
  logRetsFrom lnq none prices

/-- The cleaned return frame after dropna (src/main.py line 57): the surviving
rows as (original index, log-return) pairs, walking the prices with carried
previous price and a running index. -/
def returnRowsFrom (lnq : ℚ → ℚ) : Nat → Option ℚ → List (Option ℚ) → List (Nat × ℚ)
  | _, _, [] => []
  | t, prev, p :: rest =>
    match logRetCell lnq prev p with
    | some v => (t, v) :: returnRowsFrom lnq (t + 1) p rest
    | none => returnRowsFrom lnq (t + 1) p rest

/-- The Return Series produced by fetch: date-indexed surviving log-returns. -/
def returnRows (lnq : ℚ → ℚ) (prices : List (Option ℚ)) : List (Nat × ℚ) :=
  returnRowsFrom lnq 0 none prices

/-- Number of dates dropped by line 57 because their return is undefined: date 0
(the carried previous price starts as none, modelling shift) and every date whose
own or preceding price is missing. -/
def undefFrom : Option ℚ → List (Option ℚ) → Nat
  | _, [] => 0
  | prev, p :: rest => (if prev = none ∨ p = none then 1 else 0) + undefFrom p rest

/-- Count of dropped undefined transitions of a price list, first date included. -/
def droppedTransitions (prices : List (Option ℚ)) : Nat := undefFrom none prices

/-- The pair of prices entering the return at relative offset n: the carried
previous price and the price at n.  Used to state which prices a surviving
return was computed from. -/
def pricePair : Option ℚ → List (Option ℚ) → Nat → Option (ℚ × ℚ)
  | prev, p :: _, 0 =>
    match prev, p with
    | some a, some b => some (a, b)
    | _, _ => none
  | _, p :: rest, n + 1 => pricePair p rest n
  | _, [], _ => none

/-! ## Baseline Extractor (src/main.py lines 60-64) -/

/-- Line 60: the baseline is the list of log-returns of the rows whose date falls
in the year BASELINE_PERIOD.  A row is modelled as (year of its date, return). -/
def extractBaseline (rows : List (Nat × ℚ)) : List ℚ :=
  (rows.filter (fun p => p.1 == BASELINE_PERIOD)).map Prod.snd

/-- Lines 62-64: fetch prints a warning when the baseline holds fewer than 10
observations; it emits no other diagnostic. -/
def fetchWarnings (name : String) (baseline : List ℚ) : List String :=
  if baseline.length < 10 then
    ["WARNING: Insufficient baseline data for " ++ name]
  else []

/-! ## Rolling Feature Engine (src/main.py lines 69-78) -/

/-- The pandas trailing window of size N ending at index t: defined exactly when
t has N - 1 predecessors and lies inside the series (rolling with default
min_periods equal to the window size yields NaN otherwise). -/
def windowAt (N : Nat) (r : List ℚ) (t : Nat) : Option (List ℚ) :=
  if N ≤ t + 1 ∧ t < r.length then some ((r.take (t + 1)).drop (t + 1 - N)) else none

/-- Roll_Mean cell at index t (line 69): mean of the complete trailing window. -/
def rollMeanAt (N : Nat) (r : List ℚ) (t : Nat) : Option ℚ :=
  (windowAt N r t).map listMean

/-- The square of the Roll_Vol cell at index t (line 70): pandas rolling .std is
the square root of the sample variance (ddof = 1); the rational radicand is kept
and theorems take Real.sqrt of it. -/
def rollVarAt (N : Nat) (r : List ℚ) (t : Nat) : Option ℚ :=
  (windowAt N r t).map sampleVar

/-- Empirical cumulative distribution function of a sample at v: the fraction of
sample points that are at most v. -/
def ecdfLe (l : List ℚ) (v : ℚ) : ℚ :=
  ((l.filter (fun x => x ≤ v)).length : ℚ) / (l.length : ℚ)

/-- Two-sample Kolmogorov-Smirnov statistic (scipy.stats.ks_2samp, statistic
component): the largest absolute difference of the two empirical CDFs, evaluated
over the pooled sample points, where every step of either CDF occurs. -/
def ksStat (xs ys : List ℚ) : ℚ :=
  (((xs ++ ys).map (fun v => |ecdfLe xs v - ecdfLe ys v|)).foldr max 0)

/-- Source function ks_roll (lines 72-76): on a raw window x it yields NaN when
the window or the baseline holds fewer than 10 values or the window contains a
NaN, and otherwise the two-sample KS statistic of the window against the
baseline. -/
def ks_roll (baseline : List ℚ) (x : List (Option ℚ)) : Option ℚ :=
  if x.length < 10 ∨ baseline.length < 10 ∨ x.any (fun c => c.isNone) then none
  else some (ksStat (x.filterMap id) baseline)

/-- Roll_KS cell at index t (line 78): ks_roll applied to the complete trailing
window; NaN while the window is incomplete.  The window comes from the cleaned
return series, so its cells are all defined. -/
def rollKSAt (N : Nat) (baseline : List ℚ) (r : List ℚ) (t : Nat) : Option ℚ :=
  (windowAt N r t).bind (fun w => ks_roll baseline (w.map some))

/-! ## The frame after the dropna of compute (src/main.py line 79) -/

/-- One surviving row of the per-asset frame: its index into the return series,
its Log_Return, Roll_Mean, the radicand of Roll_Vol, and Roll_KS.  A row survives
the dropna of line 79 exactly when all three feature cells are defined. -/
structure Row where
  idx : Nat
  ret : ℚ
  rmean : ℚ
  rvar : ℚ
  rks : ℚ
deriving DecidableEq

/-- The surviving row at index t, when all three features are defined there. -/
def rowAt (baseline : List ℚ) (r : List ℚ) (t : Nat) : Option Row :=
  (rollMeanAt ROLLING_WINDOW r t).bind fun m =>
    (rollVarAt ROLLING_WINDOW r t).bind fun v =>
      (rollKSAt ROLLING_WINDOW baseline r t).map fun k =>
        ⟨t, r.getD t 0, m, v, k⟩

/-- The per-asset frame after line 79: the rows of the return series whose three
feature cells are all defined, in index order. -/
def computeRows (baseline : List ℚ) (r : List ℚ) : List Row :=
  (List.range r.length).filterMap (rowAt baseline r)

/-! ## Normalizer (src/main.py lines 81-85)

scipy.stats.zscore is called with its default ddof = 0, so each z value is the
deviation from the column mean divided by the square root of the population
variance of the column.  Working in exact arithmetic, a cell is NaN exactly when
the population variance is zero: then every deviation is exactly zero and the
float division is 0/0.  The definition carries the rational deviation; the float
value of a defined cell is the deviation divided by Real.sqrt of the population
variance. -/

/-- Deviation part of the zscore column: none models the NaN produced when the
column has zero variance, otherwise the deviation of the entry from the column
mean. -/
def zscoreDevs (col : List ℚ) : List (Option ℚ) :=
  col.map (fun x => if popVar col = 0 then none else some (x - listMean col))

/-- Lines 66-85: compute emits no diagnostic whatsoever; its only outputs are the
frame columns.  In particular no condition is signalled for a zero-variance
feature column. -/
def computeWarnings (_baseline : List ℚ) (_r : List ℚ) : List String := []

/-! ## Module-level execution loop and comparison step (src/main.py lines 136-165) -/

/-- Lines 138-149: each asset is run inside try/except; a run is modelled as the
asset name with some result on success and none when its pipeline raised.  The
engines list collects exactly the successes, in order. -/
def successfulEngines {α : Type} (runs : List (String × Option α)) : List (String × α) :=
  runs.filterMap (fun a => a.2.map (fun v => (a.1, v)))

/-- Line 149: the message printed for each asset whose run raised. -/
def skipMessages {α : Type} (runs : List (String × Option α)) : List String :=
  runs.filterMap
    (fun a => if a.2.isNone then some ("Skipping " ++ a.1 ++ " due to error") else none)

/-- Lines 152-165: the comparison step consumes the engines list as its bundle. -/
def comparisonBundle {α : Type} (engines : List (String × α)) : List (String × α) :=
  engines

/-- Lines 152-165: the whole comparison block, its final completion message
included, runs only when the engines list is nonempty; nothing at all is printed
or produced when it is empty. -/
def completionMessages {α : Type} (engines : List (String × α)) : List String :=
  if engines.isEmpty then [] else ["Processing Complete. Check the outputs folder."]

/-! ## Helper lemmas: windows -/

theorem windowAt_eq_some {N : Nat} {r : List ℚ} {t : Nat} {W : List ℚ}
    (h : windowAt N r t = some W) :
    W = (r.take (t + 1)).drop (t + 1 - N) ∧ N ≤ t + 1 ∧ t < r.length := by
  unfold windowAt at h
  by_cases hc : N ≤ t + 1 ∧ t < r.length
  · rw [if_pos hc] at h
    exact ⟨(Option.some.inj h).symm, hc⟩
  · rw [if_neg hc] at h
    cases h

theorem windowAt_length {N : Nat} {r : List ℚ} {t : Nat} {W : List ℚ}
    (h : windowAt N r t = some W) : W.length = N := by
  obtain ⟨hW, h1, h2⟩ := windowAt_eq_some h
  subst hW
  simp only [List.length_drop, List.length_take]
  omega

theorem windowAt_eq_none {N : Nat} {r : List ℚ} {t : Nat}
    (h : ¬(N ≤ t + 1 ∧ t < r.length)) : windowAt N r t = none := by
  unfold windowAt
  exact if_neg h

theorem windowAt_isSome_iff {N : Nat} {r : List ℚ} {t : Nat} :
    (windowAt N r t).isSome ↔ (N ≤ t + 1 ∧ t < r.length) := by
  unfold windowAt
  by_cases hc : N ≤ t + 1 ∧ t < r.length
  · rw [if_pos hc]
    simpa using hc
  · rw [if_neg hc]
    simp [hc]

/-! ## Helper lemmas: constant windows -/

theorem listMean_of_const {W : List ℚ} {c : ℚ} (hne : W ≠ [])
    (hc : ∀ x ∈ W, x = c) : listMean W = c := by
  have hrep : W = List.replicate W.length c := List.eq_replicate_of_mem hc
  have h0 : (W.length : ℚ) ≠ 0 := by
    have hpos := List.length_pos.mpr hne
    exact_mod_cast hpos.ne'
  rw [listMean]
  conv_lhs => rw [hrep]
  rw [List.sum_replicate, List.length_replicate, nsmul_eq_mul]
  rw [mul_comm, mul_div_assoc, div_self h0, mul_one]

theorem sqDevSum_of_const {W : List ℚ} {c : ℚ} (hne : W ≠ [])
    (hc : ∀ x ∈ W, x = c) : sqDevSum W = 0 := by
  have hm : listMean W = c := listMean_of_const hne hc
  unfold sqDevSum devs
  rw [List.map_map]
  apply List.sum_eq_zero
  intro x hx
  obtain ⟨y, hy, rfl⟩ := List.mem_map.mp hx
  simp [hc y hy, hm]

theorem sampleVar_of_const {W : List ℚ} {c : ℚ} (hne : W ≠ [])
    (hc : ∀ x ∈ W, x = c) : sampleVar W = 0 := by
  rw [sampleVar, sqDevSum_of_const hne hc, zero_div]

theorem sqDevSum_nonneg (l : List ℚ) : 0 ≤ sqDevSum l := by
  apply List.sum_nonneg
  intro x hx
  obtain ⟨y, _, rfl⟩ := List.mem_map.mp hx
  positivity

theorem sampleVar_nonneg {l : List ℚ} (h : 2 ≤ l.length) : 0 ≤ sampleVar l := by
  rw [sampleVar]
  apply div_nonneg (sqDevSum_nonneg l)
  have : (2 : ℚ) ≤ (l.length : ℚ) := by exact_mod_cast h
  linarith

/-! ## Helper lemmas: fold of max -/

theorem le_foldr_max {l : List ℚ} {x : ℚ} (hx : x ∈ l) : x ≤ l.foldr max 0 := by
  induction l with
  | nil => cases hx
  | cons a l ih =>
    rcases List.mem_cons.mp hx with rfl | hmem
    · exact le_max_left _ _
    · exact le_trans (ih hmem) (le_max_right _ _)

theorem foldr_max_nonneg (l : List ℚ) : 0 ≤ l.foldr max 0 := by
  induction l with
  | nil => exact le_refl 0
  | cons a l ih => exact le_trans ih (le_max_right _ _)

theorem foldr_max_le {l : List ℚ} {b : ℚ} (hb : 0 ≤ b)
    (h : ∀ x ∈ l, x ≤ b) : l.foldr max 0 ≤ b := by
  induction l with
  | nil => exact hb
  | cons a l ih =>
    apply max_le (h a (List.mem_cons_self a l))
    exact ih (fun x hx => h x (List.mem_cons_of_mem a hx))

theorem exists_max_mem (l : List ℚ) (hne : l ≠ []) :
    ∃ m ∈ l, ∀ x ∈ l, x ≤ m := by
  induction l with
  | nil => exact absurd rfl hne
  | cons a l ih =>
    cases l with
    | nil =>
      refine ⟨a, List.mem_cons_self a [], ?_⟩
      intro x hx
      rcases List.mem_cons.mp hx with rfl | hx
      · exact le_refl x
      · cases hx
    | cons b l2 =>
      obtain ⟨m, hm, hmax⟩ := ih (by simp)
      by_cases ham : a ≤ m
      · refine ⟨m, List.mem_cons_of_mem a hm, ?_⟩
        intro x hx
        rcases List.mem_cons.mp hx with rfl | hx
        · exact ham
        · exact hmax x hx
      · refine ⟨a, List.mem_cons_self a _, ?_⟩
        intro x hx
        rcases List.mem_cons.mp hx with rfl | hx
        · exact le_refl x
        · exact le_trans (hmax x hx) (le_of_not_le ham)

/-! ## Helper lemmas: empirical CDFs and the KS statistic -/

theorem ecdfLe_nonneg (l : List ℚ) (v : ℚ) : 0 ≤ ecdfLe l v := by
  unfold ecdfLe
  positivity

theorem ecdfLe_le_one (l : List ℚ) (v : ℚ) : ecdfLe l v ≤ 1 := by
  unfold ecdfLe
  rcases List.eq_nil_or_concat l with rfl | _
  · simp
  · apply div_le_one_of_le₀
    · exact_mod_cast List.length_filter_le _ l
    · positivity

theorem ecdfLe_congr {l : List ℚ} {v w : ℚ}
    (h : ∀ x ∈ l, (x ≤ v ↔ x ≤ w)) : ecdfLe l v = ecdfLe l w := by
  unfold ecdfLe
  have hf : l.filter (fun x => x ≤ v) = l.filter (fun x => x ≤ w) := by
    apply List.filter_congr
    intro x hx
    exact decide_eq_decide.mpr (h x hx)
  rw [hf]

theorem ecdfLe_of_perm {l₁ l₂ : List ℚ} (h : List.Perm l₁ l₂) (v : ℚ) :
    ecdfLe l₁ v = ecdfLe l₂ v := by
  unfold ecdfLe
  rw [(h.filter _).length_eq, h.length_eq]

theorem ksStat_nonneg (xs ys : List ℚ) : 0 ≤ ksStat xs ys :=
  foldr_max_nonneg _

theorem abs_ecdf_sub_le_ksStat {xs ys : List ℚ} {v : ℚ} (hv : v ∈ xs ++ ys) :
    |ecdfLe xs v - ecdfLe ys v| ≤ ksStat xs ys :=
  le_foldr_max (List.mem_map_of_mem _ hv)

theorem ksStat_le_one (xs ys : List ℚ) : ksStat xs ys ≤ 1 := by
  apply foldr_max_le zero_le_one
  intro x hx
  obtain ⟨v, _, rfl⟩ := List.mem_map.mp hx
  have h1 := ecdfLe_nonneg xs v
  have h2 := ecdfLe_le_one xs v
  have h3 := ecdfLe_nonneg ys v
  have h4 := ecdfLe_le_one ys v
  rw [abs_sub_le_iff]
  constructor <;> linarith

theorem ksStat_dominates (xs ys : List ℚ) (v : ℚ) :
    |ecdfLe xs v - ecdfLe ys v| ≤ ksStat xs ys := by
  by_cases hS : (xs ++ ys).filter (fun p => p ≤ v) = []
  · have hxs : xs.filter (fun p => p ≤ v) = [] := by
      rw [List.filter_eq_nil_iff] at hS ⊢
      exact fun a ha => hS a (List.mem_append_left ys ha)
    have hys : ys.filter (fun p => p ≤ v) = [] := by
      rw [List.filter_eq_nil_iff] at hS ⊢
      exact fun a ha => hS a (List.mem_append_right xs ha)
    have hx0 : ecdfLe xs v = 0 := by simp [ecdfLe, hxs]
    have hy0 : ecdfLe ys v = 0 := by simp [ecdfLe, hys]
    rw [hx0, hy0, sub_zero, abs_zero]
    exact ksStat_nonneg xs ys
  · obtain ⟨m, hmS, hmax⟩ := exists_max_mem _ hS
    have hmem : m ∈ xs ++ ys := (List.mem_filter.mp hmS).1
    have hmv : m ≤ v := by simpa using (List.mem_filter.mp hmS).2
    have hcong : ∀ (l : List ℚ), (∀ x ∈ l, x ∈ xs ++ ys) →
        ecdfLe l v = ecdfLe l m := by
      intro l hl
      apply ecdfLe_congr
      intro x hx
      constructor
      · intro hxv
        exact hmax x (List.mem_filter.mpr ⟨hl x hx, by simpa using hxv⟩)
      · intro hxm
        exact le_trans hxm hmv
    rw [hcong xs (fun x hx => List.mem_append_left ys hx),
      hcong ys (fun x hx => List.mem_append_right xs hx)]
    exact abs_ecdf_sub_le_ksStat hmem

theorem ksStat_eq_zero_of_perm {xs ys : List ℚ} (h : List.Perm xs ys) :
    ksStat xs ys = 0 := by
  apply le_antisymm _ (ksStat_nonneg xs ys)
  apply foldr_max_le (le_refl 0)
  intro x hx
  obtain ⟨v, _, rfl⟩ := List.mem_map.mp hx
  rw [ecdfLe_of_perm h v]
  simp

/-! ## Helper lemmas: ks_roll and the frame rows -/

theorem ks_roll_map_some {baseline x : List ℚ} (hx : 10 ≤ x.length)
    (hb : 10 ≤ baseline.length) :
    ks_roll baseline (x.map some) = some (ksStat x baseline) := by
  unfold ks_roll
  rw [if_neg, List.filterMap_map]
  · simp [Function.comp_def, List.filterMap_some]
  · push_neg
    refine ⟨by simpa using hx, by omega, ?_⟩
    simp [List.any_map, Function.comp_def]

theorem rowAt_eq_some {baseline r : List ℚ} {t : Nat} {W : List ℚ}
    (hw : windowAt ROLLING_WINDOW r t = some W) (hb : 10 ≤ baseline.length) :
    rowAt baseline r t =
      some ⟨t, r.getD t 0, listMean W, sampleVar W, ksStat W baseline⟩ := by
  have hlen : W.length = ROLLING_WINDOW := windowAt_length hw
  have hx : 10 ≤ W.length := by rw [hlen]; decide
  unfold rowAt rollMeanAt rollVarAt rollKSAt
  rw [hw]
  simp only [Option.some_bind, Option.map_some']
  rw [ks_roll_map_some hx hb]
  rfl

theorem rowAt_eq_none_of_window {baseline r : List ℚ} {t : Nat}
    (hw : windowAt ROLLING_WINDOW r t = none) : rowAt baseline r t = none := by
  unfold rowAt rollMeanAt rollVarAt rollKSAt
  rw [hw]
  rfl

theorem rowAt_isSome_iff {baseline r : List ℚ} {t : Nat} :
    (rowAt baseline r t).isSome ↔
      ((rollMeanAt ROLLING_WINDOW r t).isSome ∧
       (rollVarAt ROLLING_WINDOW r t).isSome ∧
       (rollKSAt ROLLING_WINDOW baseline r t).isSome) := by
  unfold rowAt
  cases hm : rollMeanAt ROLLING_WINDOW r t with
  | none => simp
  | some m =>
    cases hv : rollVarAt ROLLING_WINDOW r t with
    | none => simp
    | some v =>
      cases hk : rollKSAt ROLLING_WINDOW baseline r t with
      | none => simp
      | some k => simp

theorem rowAt_idx {baseline r : List ℚ} {t : Nat} {row : Row}
    (h : rowAt baseline r t = some row) : row.idx = t := by
  unfold rowAt at h
  rw [Option.bind_eq_some] at h
  obtain ⟨m, _, h⟩ := h
  rw [Option.bind_eq_some] at h
  obtain ⟨v, _, h⟩ := h
  rw [Option.map_eq_some'] at h
  obtain ⟨k, _, h⟩ := h
  subst h
  rfl

/-! ## Helper lemmas: series preparation -/

theorem undefFrom_le_length : ∀ (l : List (Option ℚ)) (prev : Option ℚ),
    undefFrom prev l ≤ l.length := by
  intro l
  induction l with
  | nil => intro prev; exact Nat.le_refl 0
  | cons p rest ih =>
    intro prev
    unfold undefFrom
    have hp := ih p
    simp only [List.length_cons]
    split <;> omega

theorem returnRowsFrom_length (lnq : ℚ → ℚ) :
    ∀ (l : List (Option ℚ)) (t : Nat) (prev : Option ℚ),
      (returnRowsFrom lnq t prev l).length = l.length - undefFrom prev l := by
  intro l
  induction l with
  | nil => intro t prev; rfl
  | cons p rest ih =>
    intro t prev
    have hle := undefFrom_le_length rest p
    cases prev with
    | none =>
      show (returnRowsFrom lnq (t + 1) p rest).length
          = (p :: rest).length - undefFrom none (p :: rest)
      rw [ih]
      have hif : undefFrom none (p :: rest) = 1 + undefFrom p rest := by
        simp [undefFrom]
      rw [hif, List.length_cons]
      omega
    | some a =>
      cases p with
      | none =>
        show (returnRowsFrom lnq (t + 1) none rest).length
            = (none :: rest).length - undefFrom (some a) (none :: rest)
        rw [ih]
        have hif : undefFrom (some a) ((none : Option ℚ) :: rest)
            = 1 + undefFrom none rest := by
          simp [undefFrom]
        rw [hif, List.length_cons]
        have hle2 := undefFrom_le_length rest none
        omega
      | some b =>
        show ((t, lnq (b / a)) :: returnRowsFrom lnq (t + 1) (some b) rest).length
            = (some b :: rest).length - undefFrom (some a) (some b :: rest)
        rw [List.length_cons, ih]
        have hif : undefFrom (some a) (some b :: rest)
            = 0 + undefFrom (some b) rest := by
          simp [undefFrom]
        rw [hif, List.length_cons]
        have hle2 := undefFrom_le_length rest (some b)
        omega

theorem pricePair_spec : ∀ (l : List (Option ℚ)) (prev : Option ℚ) (n : Nat)
    {a b : ℚ}, pricePair prev l n = some (a, b) →
    (if n = 0 then prev else l.getD (n - 1) none) = some a ∧
      l.getD n none = some b ∧ n < l.length := by
  intro l
  induction l with
  | nil =>
    intro prev n a b h
    cases n <;> cases h
  | cons p rest ih =>
    intro prev n a b h
    cases n with
    | zero =>
      cases prev with
      | none => cases h
      | some x =>
        cases p with
        | none => cases h
        | some y =>
          have hxy : x = a ∧ y = b := by
            have := Option.some.inj h
            exact ⟨congrArg Prod.fst this, congrArg Prod.snd this⟩
          obtain ⟨rfl, rfl⟩ := hxy
          exact ⟨rfl, rfl, by simp⟩
    | succ m =>
      obtain ⟨h1, h2, h3⟩ := ih p m h
      refine ⟨?_, by simpa using h2, by simp only [List.length_cons]; omega⟩
      rw [if_neg (Nat.succ_ne_zero m)]
      cases m with
      | zero => simpa using h1
      | succ k => simpa using h1

theorem returnRowsFrom_mem (lnq : ℚ → ℚ) :
    ∀ (l : List (Option ℚ)) (t0 : Nat) (prev : Option ℚ) (i : Nat) (v : ℚ),
      (i, v) ∈ returnRowsFrom lnq t0 prev l →
      t0 ≤ i ∧ ∃ a b, pricePair prev l (i - t0) = some (a, b) ∧ v = lnq (b / a) := by
  intro l
  induction l with
  | nil => intro t0 prev i v h; cases h
  | cons p rest ih =>
    intro t0 prev i v h
    cases prev with
    | none =>
      have h2 : (i, v) ∈ returnRowsFrom lnq (t0 + 1) p rest := h
      obtain ⟨hle, a, b, hpp, hv⟩ := ih (t0 + 1) p i v h2
      refine ⟨by omega, a, b, ?_, hv⟩
      have hk : i - t0 = (i - (t0 + 1)) + 1 := by omega
      rw [hk]
      exact hpp
    | some x =>
      cases p with
      | none =>
        have h2 : (i, v) ∈ returnRowsFrom lnq (t0 + 1) none rest := h
        obtain ⟨hle, a, b, hpp, hv⟩ := ih (t0 + 1) none i v h2
        refine ⟨by omega, a, b, ?_, hv⟩
        have hk : i - t0 = (i - (t0 + 1)) + 1 := by omega
        rw [hk]
        exact hpp
      | some y =>
        have h2 : (i, v) ∈ (t0, lnq (y / x)) :: returnRowsFrom lnq (t0 + 1) (some y) rest := h
        rcases List.mem_cons.mp h2 with heq | htail
        · have hi : i = t0 ∧ v = lnq (y / x) := by
            have := Prod.mk.injEq i v t0 (lnq (y / x)) ▸ heq
            exact ⟨congrArg Prod.fst heq, congrArg Prod.snd heq⟩
          obtain ⟨rfl, rfl⟩ := hi
          refine ⟨Nat.le_refl _, x, y, ?_, rfl⟩
          rw [Nat.sub_self]
          rfl
        · obtain ⟨hle, a, b, hpp, hv⟩ := ih (t0 + 1) (some y) i v htail
          refine ⟨by omega, a, b, ?_, hv⟩
          have hk : i - t0 = (i - (t0 + 1)) + 1 := by omega
          rw [hk]
          exact hpp

/-! ## Specification-side definitions (refinement targets)

These two definitions transcribe the wording of spec section 4.3 and are compared
against the code-side rolling definitions above. -/

/-- Spec wording: Rolling Mean(t) = arithmetic mean of W(t). -/
def specRollingMean (W : List ℚ) : ℚ := W.sum / (W.length : ℚ)

/-- Spec wording: Rolling Volatility(t) = sample standard deviation with
denominator N - 1 of W(t), N = 21; transcribed as the radicand with the literal
denominator 21 - 1. -/
def specSampleVarN1 (W : List ℚ) : ℚ :=
  (W.map (fun x => (x - specRollingMean W) ^ 2)).sum / ((21 : ℚ) - 1)

/-! ## Further helper lemmas -/

theorem ks_roll_none_of_small_baseline {baseline : List ℚ} {x : List (Option ℚ)}
    (hb : baseline.length < 10) : ks_roll baseline x = none := by
  unfold ks_roll
  rw [if_pos (Or.inr (Or.inl hb))]

theorem rollKSAt_none_of_small_baseline {baseline r : List ℚ} {t : Nat}
    (hb : baseline.length < 10) :
    rollKSAt ROLLING_WINDOW baseline r t = none := by
  rw [rollKSAt]
  cases hw : windowAt ROLLING_WINDOW r t with
  | none => rfl
  | some W =>
    simp only [Option.some_bind]
    exact ks_roll_none_of_small_baseline hb

theorem computeRows_drop20 (baseline r : List ℚ) :
    computeRows baseline r
      = ((List.range r.length).drop 20).filterMap (rowAt baseline r) := by
  rw [computeRows]
  conv_lhs => rw [← List.take_append_drop 20 (List.range r.length)]
  rw [List.filterMap_append]
  have hnil : ∀ t ∈ (List.range r.length).take 20, rowAt baseline r t = none := by
    intro t ht
    rw [List.take_range] at ht
    have htlt : t < min 20 r.length := List.mem_range.mp ht
    apply rowAt_eq_none_of_window
    apply windowAt_eq_none
    show ¬(21 ≤ t + 1 ∧ t < r.length)
    omega
  rw [List.filterMap_eq_nil_iff.mpr hnil, List.nil_append]

/-! ## Claim theorems -/

/-- C2: for an asset whose return rows have no date in the baseline year, the
pipeline still completes: the baseline sample is empty, the fetch warning is
recorded, every Roll_KS cell is missing, and Roll_Mean and Roll_Vol are computed
normally from the windows (they are independent of the baseline: rollMeanAt and
rollVarAt do not even take the baseline as an argument). -/
theorem empty_baseline_still_completes (rows : List (Nat × ℚ)) (name : String)
    (h : ∀ p ∈ rows, p.1 ≠ BASELINE_PERIOD) :
    extractBaseline rows = [] ∧
    fetchWarnings name (extractBaseline rows) ≠ [] ∧
    (∀ t, rollKSAt ROLLING_WINDOW (extractBaseline rows) (rows.map Prod.snd) t
      = none) ∧
    (∀ t W, windowAt ROLLING_WINDOW (rows.map Prod.snd) t = some W →
      rollMeanAt ROLLING_WINDOW (rows.map Prod.snd) t = some (listMean W) ∧
      rollVarAt ROLLING_WINDOW (rows.map Prod.snd) t = some (sampleVar W)) := by
  have hempty : extractBaseline rows = [] := by
    rw [extractBaseline]
    have : rows.filter (fun p => p.1 == BASELINE_PERIOD) = [] := by
      rw [List.filter_eq_nil_iff]
      intro p hp
      simpa using h p hp
    rw [this, List.map_nil]
  refine ⟨hempty, ?_, ?_, ?_⟩
  · rw [hempty, fetchWarnings]
    rw [if_pos (by simp)]
    simp
  · intro t
    apply rollKSAt_none_of_small_baseline
    rw [hempty]
    simp
  · intro t W hw
    rw [rollMeanAt, rollVarAt, hw]
    exact ⟨rfl, rfl⟩

/-- C2 witness: twenty-one return rows all dated 2018 satisfy the hypothesis;
the theorem then yields the degraded-but-complete behavior, and the empty
baseline evaluates concretely. -/
theorem empty_baseline_still_completes_witness :
    (∀ p ∈ List.replicate 21 ((2018 : Nat), (0 : ℚ)), p.1 ≠ BASELINE_PERIOD) ∧
    extractBaseline (List.replicate 21 ((2018 : Nat), (0 : ℚ))) = [] ∧
    fetchWarnings "NIFTY"
      (extractBaseline (List.replicate 21 ((2018 : Nat), (0 : ℚ)))) ≠ [] := by
  have h : ∀ p ∈ List.replicate 21 ((2018 : Nat), (0 : ℚ)), p.1 ≠ BASELINE_PERIOD := by
    decide
  have hc := empty_baseline_still_completes (List.replicate 21 ((2018 : Nat), (0 : ℚ)))
    "NIFTY" h
  exact ⟨h, hc.1, hc.2.1⟩

/-- C3: for every price series with at least two valid observations, the Return
Series has length exactly the price series length minus the number of dropped
undefined transitions (the first date always dropped), and the value at each
surviving date t is the logarithm of price t over price t-1. -/
theorem return_series_length_and_values (lnq : ℚ → ℚ) (prices : List (Option ℚ))
    (_hobs : 2 ≤ (prices.filter (fun p => p.isSome)).length) :
    (returnRows lnq prices).length = prices.length - droppedTransitions prices ∧
    (∀ t v, (t, v) ∈ returnRows lnq prices →
      1 ≤ t ∧ ∃ a b, prices.getD (t - 1) none = some a ∧
        prices.getD t none = some b ∧ v = lnq (b / a)) := by
  constructor
  · exact returnRowsFrom_length lnq prices 0 none
  · intro t v hmem
    obtain ⟨-, a, b, hpp, hv⟩ := returnRowsFrom_mem lnq prices 0 none t v hmem
    rw [Nat.sub_zero] at hpp
    obtain ⟨h1, h2, h3⟩ := pricePair_spec prices none t hpp
    have ht : 1 ≤ t := by
      rcases Nat.eq_zero_or_pos t with rfl | hpos
      · rw [if_pos rfl] at h1
        cases h1
      · exact hpos
    rw [if_neg (by omega)] at h1
    exact ⟨ht, a, b, h1, h2, hv⟩

/-- C3 witness: a five-day price series with one missing price has three dropped
transitions (day 0, the missing day, and the day after it) and two surviving
returns, at days 1 and 4. -/
theorem return_series_length_and_values_witness :
    (2 ≤ (([some 1, some 2, none, some 3, some 4] : List (Option ℚ)).filter
        (fun p => p.isSome)).length) ∧
    droppedTransitions [some 1, some 2, none, some 3, some 4] = 3 ∧
    returnRows id [some 1, some 2, none, some 3, some 4] = [(1, 2), (4, 4/3)] ∧
    (returnRows id [some 1, some 2, none, some 3, some 4]).length
      = ([some 1, some 2, none, some 3, some 4] : List (Option ℚ)).length
        - droppedTransitions [some 1, some 2, none, some 3, some 4] := by
  have h2 : 2 ≤ (([some 1, some 2, none, some 3, some 4] : List (Option ℚ)).filter
      (fun p => p.isSome)).length := by decide
  refine ⟨h2, by decide, ?_, ?_⟩
  · norm_num [returnRows, returnRowsFrom, logRetCell]
  · exact (return_series_length_and_values id
      [some 1, some 2, none, some 3, some 4] h2).1

/-- C4: for every date with a complete trailing window W of N = 21 returns,
Roll_Mean is the arithmetic mean of W and Roll_Vol is the sample standard
deviation with denominator N - 1 of W (the spec-side transcriptions
specRollingMean and specSampleVarN1); the Roll_Vol value (the square root of the
stored radicand) is non-negative, and a constant window yields Roll_Vol 0. -/
theorem rolling_mean_and_volatility_spec (r : List ℚ) (t : Nat) (W : List ℚ)
    (hw : windowAt ROLLING_WINDOW r t = some W) :
    W.length = 21 ∧
    rollMeanAt ROLLING_WINDOW r t = some (specRollingMean W) ∧
    rollVarAt ROLLING_WINDOW r t = some (specSampleVarN1 W) ∧
    (∀ v, rollVarAt ROLLING_WINDOW r t = some v →
      0 ≤ v ∧ 0 ≤ Real.sqrt ((v : ℚ) : ℝ) ∧
      (∀ c, (∀ x ∈ W, x = c) → Real.sqrt ((v : ℚ) : ℝ) = 0)) := by
  have hlen : W.length = 21 := windowAt_length hw
  have hmean : listMean W = specRollingMean W := rfl
  have hvar : sampleVar W = specSampleVarN1 W := by
    rw [sampleVar, specSampleVarN1, sqDevSum, devs, List.map_map, hlen, hmean]
    norm_num [Function.comp_def]
  refine ⟨hlen, ?_, ?_, ?_⟩
  · rw [rollMeanAt, hw, Option.map_some', hmean]
  · rw [rollVarAt, hw, Option.map_some', hvar]
  · intro v hv
    rw [rollVarAt, hw, Option.map_some'] at hv
    have hvv : v = sampleVar W := (Option.some.inj hv).symm
    subst hvv
    have hpos : 0 ≤ sampleVar W := sampleVar_nonneg (by omega)
    refine ⟨hpos, Real.sqrt_nonneg _, ?_⟩
    intro c hc
    have hne : W ≠ [] := by
      intro hnil
      rw [hnil] at hlen
      cases hlen
    rw [sampleVar_of_const hne hc]
    simp

/-- C4 witness: the constant window of twenty-one zero returns is complete at
date 20, and the theorem applies to it. -/
theorem rolling_mean_and_volatility_spec_witness :
    windowAt ROLLING_WINDOW (List.replicate 21 (0 : ℚ)) 20
      = some (List.replicate 21 0) ∧
    rollMeanAt ROLLING_WINDOW (List.replicate 21 (0 : ℚ)) 20
      = some (specRollingMean (List.replicate 21 0)) ∧
    specRollingMean (List.replicate 21 (0 : ℚ)) = 0 := by
  have hw : windowAt ROLLING_WINDOW (List.replicate 21 (0 : ℚ)) 20
      = some (List.replicate 21 0) := by decide
  have hc := rolling_mean_and_volatility_spec (List.replicate 21 (0 : ℚ)) 20
    (List.replicate 21 0) hw
  refine ⟨hw, hc.2.1, ?_⟩
  rw [specRollingMean]
  simp [List.sum_replicate]

/-- C6: the Roll_KS cell is computed exactly under the thresholds of ks_roll: the
raw window must hold at least 10 cells, the baseline at least 10 values, and the
window no NaN; at the pipeline level the cell is defined exactly when the window
is complete (21 observations up to and including t) and the baseline has at
least 10 values; in every other case the cell is missing, never an error. -/
theorem ks_computed_iff_thresholds (baseline r : List ℚ) (t : Nat)
    (x : List (Option ℚ)) :
    ((ks_roll baseline x).isSome ↔
      (10 ≤ x.length ∧ 10 ≤ baseline.length ∧ ∀ c ∈ x, c.isSome)) ∧
    (windowAt ROLLING_WINDOW r t = none →
      rollKSAt ROLLING_WINDOW baseline r t = none) ∧
    ((rollKSAt ROLLING_WINDOW baseline r t).isSome ↔
      (ROLLING_WINDOW ≤ t + 1 ∧ t < r.length ∧ 10 ≤ baseline.length)) := by
  have hks : ∀ y : List (Option ℚ), (ks_roll baseline y).isSome ↔
      (10 ≤ y.length ∧ 10 ≤ baseline.length ∧ ∀ c ∈ y, c.isSome) := by
    intro y
    rw [ks_roll]
    by_cases hc : y.length < 10 ∨ baseline.length < 10 ∨ y.any (fun c => c.isNone)
    · rw [if_pos hc]
      simp only [Option.isSome_none, Bool.false_eq_true, false_iff]
      intro ⟨h1, h2, h3⟩
      rcases hc with hc | hc | hc
      · omega
      · omega
      · obtain ⟨c, hcm, hcn⟩ := List.any_eq_true.mp hc
        have := h3 c hcm
        rw [Option.isNone_iff_eq_none] at hcn
        rw [hcn] at this
        cases this
    · rw [if_neg hc]
      push_neg at hc
      obtain ⟨h1, h2, h3⟩ := hc
      simp only [Option.isSome_some, true_iff]
      refine ⟨by omega, by omega, ?_⟩
      intro c hcm
      by_contra hcs
      have hcn : c.isNone = true := by
        cases c
        · rfl
        · simp at hcs
      exact absurd (List.any_eq_true.mpr ⟨c, hcm, hcn⟩) (by simp [h3])
  refine ⟨hks x, ?_, ?_⟩
  · intro hw
    rw [rollKSAt, hw]
    rfl
  · rw [rollKSAt]
    cases hw : windowAt ROLLING_WINDOW r t with
    | none =>
      have hwi := windowAt_isSome_iff (N := ROLLING_WINDOW) (r := r) (t := t)
      rw [hw] at hwi
      simp only [Option.none_bind, Option.isSome_none]
      constructor
      · intro hfalse
        cases hfalse
      · intro ⟨h1, h2, h3⟩
        have : (none : Option (List ℚ)).isSome = true := hwi.mpr ⟨h1, h2⟩
        cases this
    | some W =>
      have hwi := windowAt_isSome_iff (N := ROLLING_WINDOW) (r := r) (t := t)
      rw [hw] at hwi
      have hcond : ROLLING_WINDOW ≤ t + 1 ∧ t < r.length := hwi.mp (by rfl)
      have hlen : W.length = ROLLING_WINDOW := windowAt_length hw
      simp only [Option.some_bind]
      rw [hks (W.map some)]
      constructor
      · intro ⟨h1, h2, h3⟩
        exact ⟨hcond.1, hcond.2, h2⟩
      · intro ⟨h1, h2, h3⟩
        refine ⟨?_, h3, ?_⟩
        · rw [List.length_map, hlen]
          decide
        · intro c hcm
          obtain ⟨y, hy, rfl⟩ := List.mem_map.mp hcm
          rfl

/-- C6 witness: at date 0 of an empty return series the window is incomplete and
the Roll_KS cell is missing; ks_roll on a full window of defined cells with a
ten-value baseline is computed. -/
theorem ks_computed_iff_thresholds_witness :
    windowAt ROLLING_WINDOW ([] : List ℚ) 0 = none ∧
    rollKSAt ROLLING_WINDOW (List.replicate 10 (0 : ℚ)) ([] : List ℚ) 0 = none ∧
    ((ks_roll (List.replicate 10 (0 : ℚ))
      (List.replicate 21 (some (0 : ℚ)))).isSome ↔
        (10 ≤ (List.replicate 21 (some (0 : ℚ))).length ∧
         10 ≤ (List.replicate 10 (0 : ℚ)).length ∧
         ∀ c ∈ List.replicate 21 (some (0 : ℚ)), c.isSome)) := by
  have hw : windowAt ROLLING_WINDOW ([] : List ℚ) 0 = none := by decide
  have hc := ks_computed_iff_thresholds (List.replicate 10 (0 : ℚ)) [] 0
    (List.replicate 21 (some (0 : ℚ)))
  exact ⟨hw, hc.2.1 hw, hc.1⟩

/-- C8: a return series shorter than the rolling window length 21 yields missing
values for all three features at every date, and the final frame after dropna is
empty: no partial or padded windows are emitted. -/
theorem short_series_empty_features (baseline r : List ℚ)
    (h : r.length < ROLLING_WINDOW) :
    (∀ t, rollMeanAt ROLLING_WINDOW r t = none ∧
          rollVarAt ROLLING_WINDOW r t = none ∧
          rollKSAt ROLLING_WINDOW baseline r t = none) ∧
    computeRows baseline r = [] := by
  have hlen : r.length < 21 := h
  have hwin : ∀ t, windowAt ROLLING_WINDOW r t = none := by
    intro t
    apply windowAt_eq_none
    show ¬(21 ≤ t + 1 ∧ t < r.length)
    omega
  constructor
  · intro t
    refine ⟨?_, ?_, ?_⟩
    · rw [rollMeanAt, hwin t]
      rfl
    · rw [rollVarAt, hwin t]
      rfl
    · rw [rollKSAt, hwin t]
      rfl
  · apply List.filterMap_eq_nil_iff.mpr
    intro t _
    exact rowAt_eq_none_of_window (hwin t)

/-- C8 witness: twenty returns are one short of the window, so every feature cell
is missing and the frame is empty. -/
theorem short_series_empty_features_witness :
    (List.replicate 20 (0 : ℚ)).length < ROLLING_WINDOW ∧
    computeRows (List.replicate 10 (0 : ℚ)) (List.replicate 20 (0 : ℚ)) = [] ∧
    rollMeanAt ROLLING_WINDOW (List.replicate 20 (0 : ℚ)) 19 = none := by
  have h : (List.replicate 20 (0 : ℚ)).length < ROLLING_WINDOW := by decide
  have hc := short_series_empty_features (List.replicate 10 (0 : ℚ))
    (List.replicate 20 (0 : ℚ)) h
  exact ⟨h, hc.2, (hc.1 19).1⟩

/-- C5: every computed Roll_KS value is the two-sample Kolmogorov-Smirnov
statistic of the window against the baseline sample; the difference of the two
empirical CDFs is bounded by it at every point (it is their maximum absolute
difference); it lies in the interval from 0 to 1; and it is 0 when the window and
the baseline are the identical multiset. -/
theorem ks_distance_is_ks_statistic (baseline r : List ℚ) (t : Nat) (W : List ℚ)
    (d : ℚ) (hw : windowAt ROLLING_WINDOW r t = some W)
    (hd : rollKSAt ROLLING_WINDOW baseline r t = some d) :
    d = ksStat W baseline ∧
    0 ≤ d ∧ d ≤ 1 ∧
    (∀ v : ℚ, |ecdfLe W v - ecdfLe baseline v| ≤ d) ∧
    (List.Perm W baseline → d = 0) := by
  have hlen : W.length = ROLLING_WINDOW := windowAt_length hw
  have hk : ks_roll baseline (W.map some) = some d := by
    rw [rollKSAt, hw] at hd
    simpa using hd
  have hb : 10 ≤ baseline.length := by
    by_contra hb
    rw [ks_roll_none_of_small_baseline (by omega)] at hk
    cases hk
  rw [ks_roll_map_some (by rw [hlen]; decide) hb] at hk
  have hdk : d = ksStat W baseline := (Option.some.inj hk).symm
  subst hdk
  exact ⟨rfl, ksStat_nonneg W baseline, ksStat_le_one W baseline,
    ksStat_dominates W baseline, ksStat_eq_zero_of_perm⟩

/-- C5 witness: a window of twenty-one zeros against an identical twenty-one-zero
baseline has a computed KS distance, and by the theorem that distance is 0. -/
theorem ks_distance_is_ks_statistic_witness :
    windowAt ROLLING_WINDOW (List.replicate 21 (0 : ℚ)) 20
      = some (List.replicate 21 0) ∧
    rollKSAt ROLLING_WINDOW (List.replicate 21 (0 : ℚ))
      (List.replicate 21 (0 : ℚ)) 20
        = some (ksStat (List.replicate 21 0) (List.replicate 21 0)) ∧
    ksStat (List.replicate 21 (0 : ℚ)) (List.replicate 21 0) = 0 := by
  have hw : windowAt ROLLING_WINDOW (List.replicate 21 (0 : ℚ)) 20
      = some (List.replicate 21 0) := by decide
  have hd : rollKSAt ROLLING_WINDOW (List.replicate 21 (0 : ℚ))
      (List.replicate 21 (0 : ℚ)) 20
        = some (ksStat (List.replicate 21 0) (List.replicate 21 0)) := by
    rw [rollKSAt, hw]
    simpa using @ks_roll_map_some (List.replicate 21 (0 : ℚ))
      (List.replicate 21 (0 : ℚ)) (by decide) (by decide)
  have hc := ks_distance_is_ks_statistic (List.replicate 21 (0 : ℚ))
    (List.replicate 21 (0 : ℚ)) 20 (List.replicate 21 0)
    (ksStat (List.replicate 21 0) (List.replicate 21 0)) hw hd
  exact ⟨hw, hd, hc.2.2.2.2 (List.Perm.refl _)⟩

/-- C1 (code bug): the comment at src/main.py line 82 announces ddof = 1, the
sample standard deviation, but scipy.stats.zscore is called with its default
ddof = 0, the population standard deviation.  On the return series of
twenty-one zero returns followed by one nonzero return the pipeline produces
the two-point Roll_Mean feature series [0, 1/21]; the z-scores the code
computes for it are [-1, 1], whose mean is 0 as claimed but whose sample
standard deviation (denominator n - 1) is the square root of 2, about 1.414,
far outside floating-point tolerance of 1. -/
theorem zscore_ddof_zero_code_bug :
    (computeRows (List.replicate 10 (0 : ℚ)) (List.replicate 21 (0 : ℚ) ++ [1])).map
        Row.rmean = [0, 1/21] ∧
    popVar [0, 1/21] = 1/1764 ∧
    zscoreDevs [0, 1/21] = [some (-(1/42)), some (1/42)] ∧
    ((zscoreDevs [0, 1/21]).map (fun c => c.map
        (fun dv => ((dv : ℚ) : ℝ) / Real.sqrt ((popVar [0, 1/21] : ℚ) : ℝ))))
      = [some (-1), some 1] ∧
    ((-1 : ℝ) + 1) / 2 = 0 ∧
    Real.sqrt ((((-1 : ℝ) - 0) ^ 2 + ((1 : ℝ) - 0) ^ 2) / (2 - 1)) = Real.sqrt 2 ∧
    (14 / 10 : ℝ) < Real.sqrt 2 := by
  have h20 : windowAt ROLLING_WINDOW (List.replicate 21 (0 : ℚ) ++ [1]) 20
      = some (List.replicate 21 0) := by decide
  have h21 : windowAt ROLLING_WINDOW (List.replicate 21 (0 : ℚ) ++ [1]) 21
      = some (List.replicate 20 0 ++ [1]) := by decide
  have hb : 10 ≤ (List.replicate 10 (0 : ℚ)).length := by decide
  have hr20 := rowAt_eq_some h20 hb
  have hr21 := rowAt_eq_some h21 hb
  have hdrop : (List.range (List.replicate 21 (0 : ℚ) ++ [1]).length).drop 20
      = [20, 21] := by decide
  have hframe := computeRows_drop20 (List.replicate 10 (0 : ℚ))
    (List.replicate 21 (0 : ℚ) ++ [1])
  rw [hdrop, List.filterMap_cons_some hr20,
    List.filterMap_cons_some hr21, List.filterMap_nil] at hframe
  have hm1 : listMean (List.replicate 21 (0 : ℚ)) = 0 := by
    rw [listMean, List.sum_replicate]
    simp
  have hm2 : listMean (List.replicate 20 (0 : ℚ) ++ [1]) = 1/21 := by
    rw [listMean]
    norm_num [List.sum_append, List.sum_replicate]
  have hpop : popVar [0, 1/21] = 1/1764 := by
    norm_num [popVar, sqDevSum, devs, listMean]
  have hz : zscoreDevs [0, 1/21] = [some (-(1/42)), some (1/42)] := by
    simp only [zscoreDevs, hpop]
    norm_num [listMean]
  refine ⟨?_, hpop, hz, ?_, by norm_num, ?_, ?_⟩
  · rw [hframe]
    show [listMean (List.replicate 21 (0 : ℚ)),
      listMean (List.replicate 20 (0 : ℚ) ++ [1])] = [0, 1/21]
    rw [hm1, hm2]
  · rw [hz]
    simp only [hpop]
    have hsq : Real.sqrt (((1/1764 : ℚ) : ℝ)) = 1/42 := by
      rw [show (((1/1764 : ℚ) : ℝ)) = (1/42 : ℝ) ^ 2 by push_cast; norm_num]
      exact Real.sqrt_sq (by norm_num)
    simp only [List.map_cons, List.map_nil, Option.map_some', hsq]
    push_cast
    norm_num
  · congr 1
    norm_num
  · exact (Real.lt_sqrt (by norm_num)).mpr (by norm_num)

/-- C7 counterexample: a constant return series yields a frame with one
surviving row, so the Roll_Mean feature series [0] has zero variance; the
code performs the z-score anyway, silently producing NaN for the only entry,
and compute emits no diagnostic at all: no Undefined-Normalization condition
is signalled. -/
theorem zero_variance_never_signalled_counterexample :
    (computeRows (List.replicate 10 (0 : ℚ)) (List.replicate 21 (0 : ℚ))).map
        Row.rmean = [0] ∧
    popVar [(0 : ℚ)] = 0 ∧
    zscoreDevs [(0 : ℚ)] = [none] ∧
    computeWarnings (List.replicate 10 (0 : ℚ)) (List.replicate 21 (0 : ℚ))
      = [] := by
  have h20 : windowAt ROLLING_WINDOW (List.replicate 21 (0 : ℚ)) 20
      = some (List.replicate 21 0) := by decide
  have hb : 10 ≤ (List.replicate 10 (0 : ℚ)).length := by decide
  have hr20 := rowAt_eq_some h20 hb
  have hdrop : (List.range (List.replicate 21 (0 : ℚ)).length).drop 20
      = [20] := by decide
  have hframe := computeRows_drop20 (List.replicate 10 (0 : ℚ))
    (List.replicate 21 (0 : ℚ))
  rw [hdrop, List.filterMap_cons_some hr20, List.filterMap_nil] at hframe
  have hm1 : listMean (List.replicate 21 (0 : ℚ)) = 0 := by
    rw [listMean, List.sum_replicate]
    simp
  have hpop : popVar [(0 : ℚ)] = 0 := by
    norm_num [popVar, sqDevSum, devs, listMean]
  refine ⟨?_, hpop, ?_, rfl⟩
  · rw [hframe]
    show [listMean (List.replicate 21 (0 : ℚ))] = [0]
    rw [hm1]
  · simp only [zscoreDevs, List.map_cons, List.map_nil]
    rw [if_pos hpop]

/-- C7 amended: on a zero-variance Feature Series the Normalizer of the code
signals nothing: scipy.stats.zscore silently performs the division, whose
numerator and denominator are both exactly zero, so every Z entry is NaN, and
compute emits no diagnostic on any input. -/
theorem zero_variance_silent_nan (col : List ℚ) (hvar : popVar col = 0) :
    zscoreDevs col = List.replicate col.length none ∧
    (∀ baseline r, computeWarnings baseline r = []) := by
  constructor
  · have hall : ∀ b ∈ col.map (fun x =>
        if popVar col = 0 then (none : Option ℚ) else some (x - listMean col)),
        b = (none : Option ℚ) := by
      intro b hb
      obtain ⟨y, hy, rfl⟩ := List.mem_map.mp hb
      rw [if_pos hvar]
    have h2 := List.eq_replicate_of_mem hall
    rw [zscoreDevs, h2, List.length_map]
  · intro baseline r
    rfl

/-- C7 amended witness: the one-point feature series [1] has zero variance and
its z-score column is the single NaN cell. -/
theorem zero_variance_silent_nan_witness :
    popVar [(1 : ℚ)] = 0 ∧ zscoreDevs [(1 : ℚ)] = List.replicate 1 none := by
  have hpop : popVar [(1 : ℚ)] = 0 := by
    norm_num [popVar, sqDevSum, devs, listMean]
  exact ⟨hpop, (zero_variance_silent_nan [1] hpop).1⟩

/-- C9 counterexample: when every asset fails, the loop records one skip per
asset and then does nothing else: the engines list is empty, the comparison
block (with its completion message) is skipped entirely, and no NoDataAvailable
signal of any kind is emitted, contrary to the claim. -/
theorem no_data_not_signalled_counterexample :
    successfulEngines [("NIFTY", (none : Option Unit)), ("SENSEX", none)] = [] ∧
    skipMessages [("NIFTY", (none : Option Unit)), ("SENSEX", none)]
      = ["Skipping NIFTY due to error", "Skipping SENSEX due to error"] ∧
    completionMessages
      (successfulEngines [("NIFTY", (none : Option Unit)), ("SENSEX", none)])
        = [] := by
  refine ⟨rfl, ?_, rfl⟩
  decide

/-- C9 amended: a failure in one asset does not abort the others: the engines
list, which is the comparison bundle, holds exactly the successful assets in
order, each failed asset leaves a skip message, and when zero assets succeed
the comparison step is silently skipped: the bundle is empty and no completion
message and no NoDataAvailable signal is produced, the script ending without
failure. -/
theorem loop_isolates_failures {α : Type} (runs : List (String × Option α)) :
    (∀ n v, (n, v) ∈ successfulEngines runs ↔ (n, some v) ∈ runs) ∧
    comparisonBundle (successfulEngines runs) = successfulEngines runs ∧
    (∀ n, (n, (none : Option α)) ∈ runs →
      ("Skipping " ++ n ++ " due to error") ∈ skipMessages runs) ∧
    (successfulEngines runs = [] →
      completionMessages (successfulEngines runs) = []) := by
  refine ⟨?_, rfl, ?_, ?_⟩
  · intro n v
    rw [successfulEngines, List.mem_filterMap]
    constructor
    · rintro ⟨⟨m, o⟩, hmem, hf⟩
      cases o with
      | none => cases hf
      | some x =>
        simp only [Option.map_some'] at hf
        have h1 : m = n := congrArg Prod.fst (Option.some.inj hf)
        have h2 : x = v := congrArg Prod.snd (Option.some.inj hf)
        rw [← h1, ← h2]
        exact hmem
    · intro hmem
      exact ⟨(n, some v), hmem, rfl⟩
  · intro n hmem
    rw [skipMessages, List.mem_filterMap]
    exact ⟨(n, none), hmem, rfl⟩
  · intro h
    rw [h]
    rfl

/-- C9 amended witness: with one success and one failure the failed asset has
its skip message recorded. -/
theorem loop_isolates_failures_witness :
    ((("SENSEX" : String), (none : Option Nat)) ∈
      [(("NIFTY" : String), some 0), ("SENSEX", (none : Option Nat))]) ∧
    ("Skipping " ++ "SENSEX" ++ " due to error") ∈
      skipMessages [(("NIFTY" : String), some 0), ("SENSEX", (none : Option Nat))] := by
  have hmem : (("SENSEX" : String), (none : Option Nat)) ∈
      [(("NIFTY" : String), some 0), ("SENSEX", (none : Option Nat))] := by
    simp
  exact ⟨hmem, (loop_isolates_failures _).2.2.1 "SENSEX" hmem⟩

/-- C10 counterexample: on a constant return series of twenty-two zeros the
frame keeps two rows, every feature cell defined, but the Roll_Mean column
[0, 0] has zero variance, so both Z_Mean cells are NaN: rows remain in the
frame whose Z columns are undefined, contrary to the claim. -/
theorem z_columns_undefined_counterexample :
    (computeRows (List.replicate 10 (0 : ℚ)) (List.replicate 22 (0 : ℚ))).map
        Row.rmean = [0, 0] ∧
    popVar [(0 : ℚ), 0] = 0 ∧
    zscoreDevs [(0 : ℚ), 0] = [none, none] := by
  have h20 : windowAt ROLLING_WINDOW (List.replicate 22 (0 : ℚ)) 20
      = some (List.replicate 21 0) := by decide
  have h21 : windowAt ROLLING_WINDOW (List.replicate 22 (0 : ℚ)) 21
      = some (List.replicate 21 0) := by decide
  have hb : 10 ≤ (List.replicate 10 (0 : ℚ)).length := by decide
  have hr20 := rowAt_eq_some h20 hb
  have hr21 := rowAt_eq_some h21 hb
  have hdrop : (List.range (List.replicate 22 (0 : ℚ)).length).drop 20
      = [20, 21] := by decide
  have hframe := computeRows_drop20 (List.replicate 10 (0 : ℚ))
    (List.replicate 22 (0 : ℚ))
  rw [hdrop, List.filterMap_cons_some hr20,
    List.filterMap_cons_some hr21, List.filterMap_nil] at hframe
  have hm1 : listMean (List.replicate 21 (0 : ℚ)) = 0 := by
    rw [listMean, List.sum_replicate]
    simp
  have hpop : popVar [(0 : ℚ), 0] = 0 := by
    norm_num [popVar, sqDevSum, devs, listMean]
  refine ⟨?_, hpop, ?_⟩
  · rw [hframe]
    show [listMean (List.replicate 21 (0 : ℚ)),
      listMean (List.replicate 21 (0 : ℚ))] = [0, 0]
    rw [hm1]
  · simp only [zscoreDevs, List.map_cons, List.map_nil]
    rw [if_pos hpop]

/-- C10 amended: a date survives the dropna of compute exactly when all three
feature cells are defined there, so the three Feature Series live on exactly
the same dates; the Z columns are then defined on those same dates whenever
the feature column has nonzero population variance, and are NaN on every date
when the variance is zero. -/
theorem frame_alignment_and_z_definedness (baseline r : List ℚ) (t : Nat) :
    (t ∈ (computeRows baseline r).map Row.idx ↔
      ((rollMeanAt ROLLING_WINDOW r t).isSome ∧
       (rollVarAt ROLLING_WINDOW r t).isSome ∧
       (rollKSAt ROLLING_WINDOW baseline r t).isSome)) ∧
    (∀ col : List ℚ, popVar col ≠ 0 → ∀ c ∈ zscoreDevs col, c.isSome) ∧
    (∀ col : List ℚ, popVar col = 0 → ∀ c ∈ zscoreDevs col, c = none) := by
  refine ⟨⟨?_, ?_⟩, ?_, ?_⟩
  · intro hmem
    obtain ⟨row, hrow, hidx⟩ := List.mem_map.mp hmem
    obtain ⟨s, hs, hsome⟩ := List.mem_filterMap.mp hrow
    have hst : s = t := by
      rw [← rowAt_idx hsome, hidx]
    rw [hst] at hsome
    exact rowAt_isSome_iff.mp (by rw [hsome]; rfl)
  · intro ⟨h1, h2, h3⟩
    have hsome : (rowAt baseline r t).isSome := rowAt_isSome_iff.mpr ⟨h1, h2, h3⟩
    obtain ⟨row, hrow⟩ := Option.isSome_iff_exists.mp hsome
    have hwin : (windowAt ROLLING_WINDOW r t).isSome := by
      rw [rollMeanAt] at h1
      cases hw : windowAt ROLLING_WINDOW r t with
      | none =>
        rw [hw] at h1
        cases h1
      | some W => rfl
    have ht : t < r.length := (windowAt_isSome_iff.mp hwin).2
    exact List.mem_map.mpr ⟨row,
      List.mem_filterMap.mpr ⟨t, List.mem_range.mpr ht, hrow⟩, rowAt_idx hrow⟩
  · intro col hvar c hc
    obtain ⟨y, hy, rfl⟩ := List.mem_map.mp hc
    rw [if_neg hvar]
    rfl
  · intro col hvar c hc
    obtain ⟨y, hy, rfl⟩ := List.mem_map.mp hc
    rw [if_pos hvar]

/-- C10 amended witness: the two-point feature column [0, 1] has nonzero
variance, so by the theorem all of its z-score cells are defined. -/
theorem frame_alignment_and_z_definedness_witness :
    popVar [(0 : ℚ), 1] ≠ 0 ∧ (∀ c ∈ zscoreDevs [(0 : ℚ), 1], c.isSome) := by
  have hpop : popVar [(0 : ℚ), 1] ≠ 0 := by
    norm_num [popVar, sqDevSum, devs, listMean]
  exact ⟨hpop, (frame_alignment_and_z_definedness [] [] 0).2.1 [0, 1] hpop⟩

end StructuralBreak
